import Mathlib

/-!
Verification of the local text-processing pipeline of the
contract-decoder browser extension (content.js).

Texts are modelled as `List Char` (one entry per Unicode code point).
Each JavaScript function of the pipeline is translated into an
executable Lean definition with the same name:

* `splitSentences`  — the sentence segmenter (content.js, splitSentences)
* `localSummarize`  — the extractive summarizer (content.js, localSummarize)
* `localRewrite`    — the plain-language rewriter (content.js, localRewrite)
* `localClassify`   — the keyword risk classifier (content.js, localClassify)
* `localTranslate`  — the phrase translator (content.js, localTranslate)
* `runPipeline`     — the orchestrator (content.js, runPipeline), with the
  remote generative capability modelled as an explicit record of
  fallible functions.

The fixed regular expressions of the source are finite alternations of
literal pieces, so each one is embedded as its ordered list of literal
expansions, matched case-insensitively in the same order a backtracking
regex engine tries them.
-/

/-- Convert a string literal to the `List Char` text representation. -/
def toL (s : String) : List Char := s.toList

/-- The JavaScript whitespace class `\s` (and the set trimmed by
`String.prototype.trim`): ASCII whitespace, NBSP, the Unicode space
separators, line/paragraph separators and the BOM. -/
def isWs (c : Char) : Bool :=
  c = ' ' || c = '\t' || c = '\n' || c = '\r' || c.toNat = 11 || c.toNat = 12 ||
  c.toNat = 0xa0 || c.toNat = 0x1680 || (0x2000 ≤ c.toNat && c.toNat ≤ 0x200a) ||
  c.toNat = 0x2028 || c.toNat = 0x2029 || c.toNat = 0x202f || c.toNat = 0x205f ||
  c.toNat = 0x3000 || c.toNat = 0xfeff

/-- Sentence-terminal punctuation, the class `[.!?]` of the segmenter. -/
def isTerm (c : Char) : Bool := c = '.' || c = '!' || c = '?'

/-- The JavaScript word-character class `\w` used by the `\b` assertion. -/
def isWordChar (c : Char) : Bool :=
  ('a' ≤ c && c ≤ 'z') || ('A' ≤ c && c ≤ 'Z') || ('0' ≤ c && c ≤ '9') || c = '_'

/-- ASCII lower-casing, the canonicalisation used by the `i` flag of the
source regexes (all their pattern characters are ASCII, and non-unicode
`i` matching never folds a non-ASCII character onto an ASCII one). -/
def lcAscii (c : Char) : Char :=
  if 'A' ≤ c && c ≤ 'Z' then Char.ofNat (c.toNat + 32) else c

/-- `text.trim()` of JavaScript: drop whitespace from both ends. -/
def trimChars (l : List Char) : List Char :=
  ((l.dropWhile isWs).reverse.dropWhile isWs).reverse

/-- `Array.prototype.join(sep)`. -/
def joinSep (sep : List Char) : List (List Char) → List Char
  | [] => []
  | [x] => x
  | x :: y :: xs => x ++ sep ++ joinSep sep (y :: xs)

/-- `text.replace(/\n+/g, ' ')`: each maximal run of newlines becomes a
single space.  The flag records whether the previous character was a
newline of the same run. -/
def collapseNlF : Bool → List Char → List Char
  | _, [] => []
  | inRun, c :: rest =>
    if c = '\n' then
      (if inRun then [] else [' ']) ++ collapseNlF true rest
    else c :: collapseNlF false rest

/-- First step of `splitSentences` in content.js. -/
def collapseNewlines (t : List Char) : List Char := collapseNlF false t

/-- `text.split(/(?<=[.!?])\s+/)`: the state is `none` while skipping the
whitespace run just matched by the separator regex, and `some (prevTerm,
acc)` while accumulating the current piece in reverse, with `prevTerm`
recording whether the previous character was sentence-terminal
punctuation (the lookbehind). -/
def splitAux : Option (Bool × List Char) → List Char → List (List Char)
  | none, [] => [[]]
  | none, c :: rest =>
    if isWs c then splitAux none rest
    else splitAux (some (isTerm c, [c])) rest
  | some (_, acc), [] => [acc.reverse]
  | some (prevTerm, acc), c :: rest =>
    if prevTerm && isWs c then acc.reverse :: splitAux none rest
    else splitAux (some (isTerm c, c :: acc)) rest

/-- The raw pieces produced by the split, before trimming and filtering. -/
def rawPieces (t : List Char) : List (List Char) :=
  splitAux (some (false, [])) (collapseNewlines t)

/-- content.js `splitSentences`: collapse newline runs, split after
terminal punctuation followed by whitespace, trim every piece, drop the
empty ones. -/
def splitSentences (t : List Char) : List (List Char) :=
  ((rawPieces t).map trimChars).filter (fun s => !s.isEmpty)

/-- The comparison realised by the stable JavaScript
`sort((a, b) => b.len - a.len)` on the length-annotated sentences: the
pair carries the original position, so ties are won by the earlier
sentence.  `a` precedes `b` when `a` is longer, or equally long and not
later in the document. -/
def rankLE (a b : Nat × List Char) : Prop :=
  b.2.length < a.2.length ∨ (a.2.length = b.2.length ∧ a.1 ≤ b.1)

instance : DecidableRel rankLE := fun a b => by
  unfold rankLE; exact inferInstance

instance : IsTotal (Nat × List Char) rankLE := by
  constructor
  intro a b
  unfold rankLE
  rcases Nat.lt_trichotomy a.2.length b.2.length with h | h | h
  · exact Or.inr (Or.inl h)
  · rcases Nat.le_total a.1 b.1 with h1 | h1
    · exact Or.inl (Or.inr ⟨h, h1⟩)
    · exact Or.inr (Or.inr ⟨h.symm, h1⟩)
  · exact Or.inl (Or.inl h)

instance : IsTrans (Nat × List Char) rankLE := by
  constructor
  intro a b c hab hbc
  unfold rankLE at *
  omega

/-- content.js `localSummarize`: empty text gives the empty string;
otherwise split into sentences, return them space-joined when there are
at most `maxSentences` of them, and otherwise sort stably by descending
length (realised by sorting the position-annotated list with the total
order `rankLE`), take the first `maxSentences` and join them with blank
lines in rank order. -/
def localSummarize (text : List Char) (maxSentences : Nat) : List Char :=
  if text = [] then []
  else
    let s := splitSentences text
    if s.length ≤ maxSentences then joinSep (toL " ") s
    else
      let ranked := List.insertionSort rankLE s.enum
      joinSep (toL "\n\n") ((ranked.take maxSentences).map Prod.snd)

/-- Case-insensitive literal prefix test: does the text start with the
(lower-case) pattern, comparing ASCII-case-insensitively? -/
def startsWithCI : List Char → List Char → Bool
  | [], _ => true
  | _ :: _, [] => false
  | p :: ps, c :: cs => lcAscii c = p && startsWithCI ps cs

/-- The `\b` assertion after a match whose last character is a word
character: the next character must be absent or a non-word character. -/
def boundaryAfter : List Char → Bool
  | [] => true
  | c :: _ => !isWordChar c

/-- Match one of the literal expansions of a source regex at the head of
`l`.  Every expansion of the LEGAL_MAP regexes starts and ends with a
word character, so the leading `\b` holds exactly when the previous
character (`prevW`) is not a word character, and the trailing `\b` is
`boundaryAfter`.  Expansions are tried in the backtracking order of the
regex engine and the first hit wins. -/
def matchAlts (alts : List (List Char)) (prevW : Bool) (l : List Char) : Option Nat :=
  if prevW then none
  else
    alts.findSome? fun a =>
      if startsWithCI a l && boundaryAfter (l.drop a.length) then some a.length else none

/-- `text.replace(rx, repl)` for a global case-insensitive regex given by
its expansions: scan left to right, replace each match and resume right
after it (the replacement itself is not rescanned), tracking whether the
previous character of the original text is a word character.  The fuel
is the length of the remaining text, which every step strictly
decreases, keeping the definition structurally recursive. -/
def replaceCIF (alts : List (List Char)) (repl : List Char) : Nat → Bool → List Char → List Char
  | _, _, [] => []
  | 0, _, l => l
  | fuel + 1, prevW, c :: rest =>
    match matchAlts alts prevW (c :: rest) with
    | some (n + 1) =>
      repl ++ replaceCIF alts repl fuel (isWordChar ((c :: rest).getD n ' ')) (rest.drop n)
    | _ => c :: replaceCIF alts repl fuel (isWordChar c) rest

/-- One rewriting rule of content.js: a global case-insensitive replace
over the whole text, starting at a word boundary (no previous word
character). -/
def replaceCI (alts : List (List Char)) (repl : List Char) (t : List Char) : List Char :=
  replaceCIF alts repl t.length false t

/-- `out.replace(/\s{2,}/g, ' ')`: every maximal whitespace run of length
at least two becomes one space; a lone whitespace character is kept
as-is.  The flag is true while inside a run whose replacement was
already emitted. -/
def collapseWsF : Bool → List Char → List Char
  | _, [] => []
  | true, c :: rest =>
    if isWs c then collapseWsF true rest else c :: collapseWsF false rest
  | false, c :: rest =>
    if isWs c then
      match rest with
      | [] => [c]
      | c2 :: _ =>
        if isWs c2 then ' ' :: collapseWsF true rest else c :: collapseWsF false rest
    else c :: collapseWsF false rest

/-- Whitespace collapsing step of `localRewrite`. -/
def collapseWs (t : List Char) : List Char := collapseWsF false t

/-- Expansions of `/\byou (?:agree|acknowledge|consent) to\b/ig`. -/
def ALTS1 : List (List Char) :=
  [toL "you agree to", toL "you acknowledge to", toL "you consent to"]

/-- Expansions of `/\bmay (?:be )?liable for\b/ig` (greedy optional
first). -/
def ALTS5 : List (List Char) := [toL "may be liable for", toL "may liable for"]

/-- Expansions of `/\bthird[- ]?party( data| services| providers)?\b/ig`:
the optional separator class present first, and within it the group
alternatives in order with the empty option last. -/
def ALTS6 : List (List Char) :=
  [toL "third-party data", toL "third-party services", toL "third-party providers",
   toL "third-party",
   toL "third party data", toL "third party services", toL "third party providers",
   toL "third party",
   toL "thirdparty data", toL "thirdparty services", toL "thirdparty providers",
   toL "thirdparty"]

/-- Expansions of `/\bauto-?renew(a|al)?\b/ig`: hyphen present first,
group alternatives `a`, `al`, then empty. -/
def ALTS7 : List (List Char) :=
  [toL "auto-renewa", toL "auto-renewal", toL "auto-renew",
   toL "autorenewa", toL "autorenewal", toL "autorenew"]

/-- Expansions of `/\bterminate(ion|ing)?\b/ig`. -/
def ALTS8 : List (List Char) :=
  [toL "terminateion", toL "terminateing", toL "terminate"]

/-- The ordered LEGAL_MAP rule list of content.js, each regex replaced by
its ordered literal expansions. -/
def LEGAL_MAP : List (List (List Char) × List Char) :=
  [(ALTS1, toL "you agree to"),
   ([toL "hereby"], toL "this means"),
   ([toL "to the extent permitted by law"], toL "if the law allows it"),
   ([toL "in the event of"], toL "if"),
   (ALTS5, toL "could be responsible for"),
   (ALTS6, toL "other companies"),
   (ALTS7, toL "auto-renewal (automatic renewal of service or payment)"),
   (ALTS8, toL "end/stop")]

/-- content.js `localRewrite`: empty text gives the empty string;
otherwise apply the LEGAL_MAP rules in order, each over the output of
the previous one, then collapse whitespace runs and trim. -/
def localRewrite (text : List Char) : List Char :=
  if text = [] then []
  else
    trimChars (collapseWs
      (LEGAL_MAP.foldl (fun acc rule => replaceCI rule.1 rule.2 acc) text))

/-- Match one of the literal expansions of a pattern with no word
boundary assertions (for the rule list exactly as the spec writes it). -/
def matchAltsNB (alts : List (List Char)) (l : List Char) : Option Nat :=
  alts.findSome? fun a => if startsWithCI a l then some a.length else none

/-- Global case-insensitive replacement for a boundary-free pattern,
fueled like `replaceCIF`. -/
def replaceNBF (alts : List (List Char)) (repl : List Char) : Nat → List Char → List Char
  | _, [] => []
  | 0, l => l
  | fuel + 1, c :: rest =>
    match matchAltsNB alts (c :: rest) with
    | some (n + 1) => repl ++ replaceNBF alts repl fuel (rest.drop n)
    | _ => c :: replaceNBF alts repl fuel rest

/-- One rule application for the spec-written pattern list. -/
def replaceNB (alts : List (List Char)) (repl : List Char) (t : List Char) : List Char :=
  replaceNBF alts repl t.length t

/-- Expansions of the spec pattern `auto-?renew(al)?` of rule 7 (group
alternative `al` first, then empty; hyphen present first). -/
def SPEC_ALTS7 : List (List Char) :=
  [toL "auto-renewal", toL "auto-renew", toL "autorenewal", toL "autorenew"]

/-- The eight rules exactly as the spec lists them: the same replacement
strings, but the patterns carry no `\b` word-boundary assertions and
rule 7 is `auto-?renew(al)?` instead of the `auto-?renew(a|al)?` found
in the source. -/
def SPEC_RULES : List (List (List Char) × List Char) :=
  [(ALTS1, toL "you agree to"),
   ([toL "hereby"], toL "this means"),
   ([toL "to the extent permitted by law"], toL "if the law allows it"),
   ([toL "in the event of"], toL "if"),
   (ALTS5, toL "could be responsible for"),
   (ALTS6, toL "other companies"),
   (SPEC_ALTS7, toL "auto-renewal (automatic renewal of service or payment)"),
   (ALTS8, toL "end/stop")]

/-- The rewriter as the spec words describe it: apply the eight listed
(pattern, replacement) rules sequentially and case-insensitively with no
word-boundary anchoring, then collapse whitespace runs and trim.  This
definition follows the words of the spec (section 4.3) and is compared
against `localRewrite`, which is translated from the source. -/
def specRewrite (text : List Char) : List Char :=
  trimChars (collapseWs
    (SPEC_RULES.foldl (fun acc rule => replaceNB rule.1 rule.2 acc) text))

/-- Severity levels of the risk classifier. -/
inductive Severity
  | safe
  | warning
  | danger
deriving DecidableEq

/-- One entry of the clauses array built by `localClassify`. -/
structure RiskFinding where
  id : List Char
  level : Severity
  explain : List Char
deriving DecidableEq

/-- The record returned by `localClassify`. -/
structure Classification where
  overall : Severity
  items : List RiskFinding
deriving DecidableEq

/-- One check of `localClassify`: a fixed category key, the literal
expansions of its alternation regex, a fixed severity and a fixed
explanation string. -/
structure RiskCheck where
  key : List Char
  subs : List (List Char)
  level : Severity
  explain : List Char

/-- Case-insensitive substring test (`rx.test(text)` for a literal). -/
def containsCI (pat : List Char) : List Char → Bool
  | [] => pat.isEmpty
  | c :: rest => startsWithCI pat (c :: rest) || containsCI pat rest

/-- `rx.test(text)` for the alternation regex of a check: some expansion
occurs somewhere in the text, case-insensitively. -/
def testCheck (c : RiskCheck) (text : List Char) : Bool :=
  c.subs.any fun p => containsCI p text

/-- The five checks of content.js `localClassify`, each regex written as
its literal expansions. -/
def CHECKS : List RiskCheck :=
  [{ key := toL "auto-renew",
     subs := [toL "auto-renew", toL "autorenew", toL "renewal"],
     level := Severity.danger,
     explain := toL "Automatic renewal or subscription renewal clause" },
   { key := toL "fees",
     subs := [toL "fee", toL "charge", toL "cost", toL "billing"],
     level := Severity.warning,
     explain := toL "Mentions fees, charges or billing terms" },
   { key := toL "data-sharing",
     subs := [toL "share your data", toL "third-party", toL "third party",
              toL "thirdparty", toL "personal data", toL "process personal data"],
     level := Severity.warning,
     explain := toL "Mentions sharing or processing of personal data" },
   { key := toL "waiver",
     subs := [toL "waive", toL "waiver", toL "limit liability",
              toL "limitation of liability"],
     level := Severity.danger,
     explain := toL "Limits your ability to sue or reduces liability" },
   { key := toL "dispute",
     subs := [toL "arbitration", toL "dispute resolution", toL "class action waiver"],
     level := Severity.warning,
     explain := toL "Requires arbitration or limits dispute options" }]

/-- The five findings the checks can produce, in check order. -/
def FIVE_FINDINGS : List RiskFinding :=
  CHECKS.map fun c => { id := c.key, level := c.level, explain := c.explain }

/-- The clauses array built by the check loop of `localClassify`: the
fixed finding of every check whose pattern fires, in check order. -/
def classifyItems (text : List Char) : List RiskFinding :=
  (CHECKS.filter fun c => testCheck c text).map fun c =>
    { id := c.key, level := c.level, explain := c.explain }

/-- content.js `localClassify`: empty text is safe with no findings;
otherwise every check whose pattern fires contributes its fixed finding,
and the overall severity is danger when some finding is danger, else
warning when any finding exists, else safe. -/
def localClassify (text : List Char) : Classification :=
  if text = [] then { overall := Severity.safe, items := [] }
  else
    { overall :=
        if (classifyItems text).any fun f => f.level = Severity.danger then Severity.danger
        else if (classifyItems text).isEmpty then Severity.safe
        else Severity.warning,
      items := classifyItems text }

/-- Case-sensitive literal prefix test. -/
def startsWithL : List Char → List Char → Bool
  | [], _ => true
  | _ :: _, [] => false
  | p :: ps, c :: cs => p = c && startsWithL ps cs

/-- `out.replace(new RegExp(k, 'g'), v)` for the translation phrases:
none of the fixed phrases contains a regex metacharacter, so the global
replace is the case-sensitive literal replacement of every occurrence,
scanning left to right and resuming after each replacement.  Fueled like
`replaceCIF`; the guard on an empty pattern never fires for the fixed
nonempty phrases. -/
def replaceLitF (pat repl : List Char) : Nat → List Char → List Char
  | _, [] => []
  | 0, l => l
  | fuel + 1, c :: rest =>
    if startsWithL pat (c :: rest) && !pat.isEmpty then
      repl ++ replaceLitF pat repl fuel (rest.drop (pat.length - 1))
    else c :: replaceLitF pat repl fuel rest

/-- Replace every occurrence of the literal `pat` by `repl`. -/
def replaceLit (pat repl t : List Char) : List Char :=
  replaceLitF pat repl t.length t

/-- The TRANSLATIONS.es table of content.js, in key insertion order. -/
def TRANS_ES : List (List Char × List Char) :=
  [(toL "Automatic renewal or subscription renewal clause",
    toL "Cláusula de renovación automática o suscripción"),
   (toL "Mentions fees, charges or billing terms",
    toL "Menciona tarifas, cargos o términos de facturación"),
   (toL "Mentions sharing or processing of personal data",
    toL "Menciona el intercambio o procesamiento de datos personales"),
   (toL "Limits your ability to sue or reduces liability",
    toL "Limita su capacidad para demandar o reduce la responsabilidad"),
   (toL "Requires arbitration or limits dispute options",
    toL "Requiere arbitraje o limita las opciones de disputa")]

/-- `TRANSLATIONS[lang] || {}` of content.js: the table only has an
entry for the language code es, every other code gives the empty map. -/
def TRANSLATIONS (lang : List Char) : List (List Char × List Char) :=
  if lang = toL "es" then TRANS_ES else []

/-- The substitution loop of `localTranslate`: fold the (phrase,
translation) pairs of the language over the text, replacing all
occurrences of each phrase in turn. -/
def applyTranslations (lang text : List Char) : List Char :=
  (TRANSLATIONS lang).foldl (fun acc kv => replaceLit kv.1 kv.2 acc) text

/-- The marker appended when no substitution occurred, the template
literal of line 369 of content.js. -/
def translateMarker (lang : List Char) : List Char :=
  toL "\n\n[Translated to " ++ lang ++ toL " (approx)]"

/-- content.js `localTranslate`: empty text gives the empty string, the
default language returns the text unchanged, and otherwise all known
phrases of the language are substituted; the marker is appended exactly
when the substituted text equals the input. -/
def localTranslate (text lang : List Char) : List Char :=
  if text = [] then []
  else if lang = toL "en" then text
  else
    let out := applyTranslations lang text
    out ++ (if out = text then translateMarker lang else [])

/-- The remote generative-text capability (window.googleAI), an opaque
record of three fallible operations; a thrown exception is modelled as
`Except.error ()`. -/
structure Remote where
  summarizeText : List Char → Except Unit (List Char)
  generateText : List Char → Except Unit (List Char)
  translateText : List Char → List Char → Except Unit (List Char)

/-- The prompt built for the plain-language explanation in runPipeline. -/
def explainPrompt (text : List Char) : List Char :=
  toL "Please explain the following text in simple terms:\n\n" ++ text

/-- The summarize-and-explain step of `runPipeline` (content.js lines
380 to 397): with a remote capability, ask it for the summary and then
for the explanation inside one try block, so an error from either call
(the second is not attempted when the first fails) discards both remote
results and computes the pair locally; without a capability the pair is
local from the start.  The step is total: no error escapes it. -/
def summarizeExplainStep (remote : Option Remote) (text : List Char) :
    List Char × List Char :=
  match remote with
  | some api =>
    match api.summarizeText text with
    | Except.error _ => (localSummarize text 3, localRewrite text)
    | Except.ok s =>
      match api.generateText (explainPrompt text) with
      | Except.error _ => (localSummarize text 3, localRewrite text)
      | Except.ok p => (s, p)
  | none => (localSummarize text 3, localRewrite text)

/-- The translation step of `runPipeline` (content.js lines 399 to 419):
for the default language both outputs pass through unchanged; otherwise
the remote capability translates summary then explanation inside one try
block, an error from either call making both fall back to
`localTranslate`, which is also used when no capability is present. -/
def translateStep (remote : Option Remote) (lang summary plain : List Char) :
    List Char × List Char :=
  if lang = toL "en" then (summary, plain)
  else
    match remote with
    | some api =>
      match api.translateText summary lang with
      | Except.error _ => (localTranslate summary lang, localTranslate plain lang)
      | Except.ok ts =>
        match api.translateText plain lang with
        | Except.error _ => (localTranslate summary lang, localTranslate plain lang)
        | Except.ok tp => (ts, tp)
    | none => (localTranslate summary lang, localTranslate plain lang)

/-- The record assembled by one run of the pipeline: the (possibly
translated) summary and plain-language explanation, and the locally
computed classification. -/
structure PipelineResult where
  summary : List Char
  plain : List Char
  classification : Classification

/-- content.js `runPipeline`: when the given text is empty the current
selection is used instead; the summarize-and-explain step and the
translation step run in order, and the classification is always
`localClassify` of the untranslated input text.  (The em-dash
placeholders of lines 421 and 422 belong to the display layer and are
not part of the assembled result.) -/
def runPipeline (remote : Option Remote) (selection text lang : List Char) :
    PipelineResult :=
  let text := if text = [] then selection else text
  let sp := summarizeExplainStep remote text
  let tsp := translateStep remote lang sp.1 sp.2
  { summary := tsp.1, plain := tsp.2, classification := localClassify text }

/-- A remote capability whose summarize call always fails. -/
def apiFail : Remote :=
  { summarizeText := fun _ => Except.error (),
    generateText := fun _ => Except.ok (toL "remote explanation"),
    translateText := fun _ _ => Except.error () }

/-- One rewriting rule applied to the current state of the text. -/
def applyRule (rule : List (List Char) × List Char) (t : List Char) : List Char :=
  replaceCI rule.1 rule.2 t

/-- Dropping trailing whitespace, proof helper for `trimChars`. -/
def dropTrailingWs (l : List Char) : List Char :=
  (l.reverse.dropWhile isWs).reverse

/-- Rebuild a text from split pieces and the separators between them. -/
def glue : List (List Char) → List (List Char) → List Char
  | [], _ => []
  | [p], _ => p
  | p :: q :: ps, [] => p ++ glue (q :: ps) []
  | p :: q :: ps, s :: ss => p ++ s ++ glue (q :: ps) ss

/-- Separator lists of the split: nonempty all-whitespace runs. -/
def goodSeps (seps : List (List Char)) : Prop :=
  ∀ s ∈ seps, s ≠ [] ∧ ∀ c ∈ s, isWs c = true

/-- All pieces except the last end in terminal punctuation. -/
def piecesOK (ps : List (List Char)) : Prop :=
  ∀ p ∈ ps.dropLast, p ≠ [] ∧ isTerm (p.getLastD ' ') = true

/-- Claim C9: classifying the empty string is a defined, non-error
result: overall severity safe with an empty findings list. -/
theorem classify_empty_safe :
    localClassify [] = { overall := Severity.safe, items := [] } := rfl

/-- Claim C7: translation with the default language code en is the
identity on every string. -/
theorem translate_default_language_id (x : List Char) :
    localTranslate x (toL "en") = x := by
  by_cases h : x = []
  · subst h; rfl
  · simp [localTranslate, h]

/-- Claim C10: for the empty input text, `localTranslate` returns the
empty string for every target language, default, known or unknown, with
no translation marker appended: the empty input short-circuits before
the no-substitution marker rule. -/
theorem translate_empty_no_marker (lang : List Char) :
    localTranslate [] lang = [] := rfl

/-- Claim C6: the classification assembled by the pipeline is always
`localClassify` of the untranslated input text (the selection when the
given text is empty): it does not depend on the target language, on the
remote capability, or on the summary and explanation outputs. -/
theorem classification_always_local (remote : Option Remote)
    (selection text lang : List Char) :
    (runPipeline remote selection text lang).classification =
      localClassify (if text = [] then selection else text) ∧
    (runPipeline remote selection text lang).classification =
      (runPipeline none selection text (toL "en")).classification :=
  ⟨rfl, rfl⟩

/-- Claim C2: when the remote capability is present but either remote
call of the summarize-and-explain step fails, both outputs are the
locally computed ones (`localSummarize` then `localRewrite`); no partial
remote result is kept, and the step still returns a plain pair, so no
error reaches the caller. -/
theorem remote_failure_full_local_fallback (api : Remote) (text : List Char)
    (h : (∃ e, api.summarizeText text = Except.error e) ∨
         (∃ e, api.generateText (explainPrompt text) = Except.error e)) :
    summarizeExplainStep (some api) text =
      (localSummarize text 3, localRewrite text) := by
  rcases hs : api.summarizeText text with e | s
  · simp [summarizeExplainStep, hs]
  · rcases hg : api.generateText (explainPrompt text) with e | p
    · simp [summarizeExplainStep, hs, hg]
    · exfalso
      rcases h with ⟨e, he⟩ | ⟨e, he⟩
      · simp [hs] at he
      · simp [hg] at he

/-- Witness for claim C2 at a concrete failing capability and text. -/
theorem remote_failure_full_local_fallback_witness :
    summarizeExplainStep (some apiFail) (toL "Hi.") =
      (localSummarize (toL "Hi.") 3, localRewrite (toL "Hi.")) :=
  remote_failure_full_local_fallback apiFail (toL "Hi.") (Or.inl ⟨(), rfl⟩)

/-- Claim C4: the classifier produces at most one finding per category —
its findings list is a sublist of the five fixed findings (fixed id,
severity and explanation), hence of length at most five with pairwise
distinct category ids — and the overall severity is danger when some
finding is danger, else safe when there is no finding, else warning. -/
theorem classify_one_finding_per_category (text : List Char) :
    (localClassify text).items.Sublist FIVE_FINDINGS ∧
    (localClassify text).items.length ≤ 5 ∧
    (localClassify text).items.Pairwise (fun a b => a.id ≠ b.id) ∧
    (localClassify text).overall =
      (if (localClassify text).items.any (fun f => f.level = Severity.danger)
       then Severity.danger
       else if (localClassify text).items = [] then Severity.safe
       else Severity.warning) := by
  have hsub : (localClassify text).items.Sublist FIVE_FINDINGS := by
    by_cases h : text = []
    · simp [localClassify, h]
    · simp only [localClassify, if_neg h]
      exact List.Sublist.map _ (List.filter_sublist _)
  refine ⟨hsub, le_trans hsub.length_le (by decide), ?_, ?_⟩
  · exact List.Pairwise.sublist hsub (by decide)
  · by_cases h : text = []
    · simp [localClassify, h]
    · simp only [localClassify, if_neg h]
      simp [List.isEmpty_iff]

/-- Claim C3 counterexample: on the input auto-renewa the source rule 7
`\bauto-?renew(a|al)?\b` consumes the trailing a, while the pattern the
spec lists, `auto-?renew(al)?`, leaves it behind, so the rewriter does
not apply the spec-listed patterns. -/
theorem rewrite_spec_pattern_counterexample :
    localRewrite (toL "auto-renewa") =
      toL "auto-renewal (automatic renewal of service or payment)" ∧
    specRewrite (toL "auto-renewa") =
      toL "auto-renewal (automatic renewal of service or payment)a" ∧
    localRewrite (toL "auto-renewa") ≠ specRewrite (toL "auto-renewa") := by
  decide

/-- Claim C3 as amended: `localRewrite` applies the eight source rules
case-insensitively and sequentially in the listed order, each rule
matching the output of the previous ones, where every pattern is
anchored by word boundaries on both sides and rule 7 is
`auto-?renew(a|al)?`; afterwards every whitespace run of length at least
two is collapsed to one space and the ends are trimmed. -/
theorem rewrite_sequential_rules_contract (t : List Char) :
    localRewrite t =
      trimChars (collapseWs
        (applyRule (ALTS8, toL "end/stop")
          (applyRule (ALTS7, toL "auto-renewal (automatic renewal of service or payment)")
            (applyRule (ALTS6, toL "other companies")
              (applyRule (ALTS5, toL "could be responsible for")
                (applyRule ([toL "in the event of"], toL "if")
                  (applyRule ([toL "to the extent permitted by law"], toL "if the law allows it")
                    (applyRule ([toL "hereby"], toL "this means")
                      (applyRule (ALTS1, toL "you agree to") t))))))))) := by
  by_cases h : t = []
  · subst h; decide
  · simp [localRewrite, h, LEGAL_MAP, applyRule]

/-- Claim C5 counterexample: for the empty text and the non-default
language es the substituted output equals the input, yet the translation
marker is not appended — the result is the empty string. -/
theorem translate_empty_counterexample :
    localTranslate [] (toL "es") = [] ∧ translateMarker (toL "es") ≠ [] := by
  decide

/-- Claim C5 as amended: for every nonempty text and non-default target
language, `localTranslate` substitutes every registered phrase of the
language (case-sensitively, as a literal, all occurrences), appends the
visible marker exactly when the substituted output equals the input, and
treats an unknown language as an empty phrase map, returning the text
unchanged with the marker appended. -/
theorem translate_nonempty_contract (text lang : List Char)
    (htext : text ≠ []) (hlang : lang ≠ toL "en") :
    (localTranslate text lang =
      applyTranslations lang text ++
        (if applyTranslations lang text = text then translateMarker lang else [])) ∧
    (lang ≠ toL "es" →
      localTranslate text lang = text ++ translateMarker lang) := by
  constructor
  · simp [localTranslate, htext, hlang]
  · intro hes
    simp [localTranslate, htext, hlang, applyTranslations, TRANSLATIONS, hes]

/-- Witness for the amended claim C5 at a concrete text and unknown
language. -/
theorem translate_nonempty_contract_witness :
    (localTranslate (toL "hola") (toL "fr") =
      applyTranslations (toL "fr") (toL "hola") ++
        (if applyTranslations (toL "fr") (toL "hola") = toL "hola"
         then translateMarker (toL "fr") else [])) ∧
    (toL "fr" ≠ toL "es" →
      localTranslate (toL "hola") (toL "fr") = toL "hola" ++ translateMarker (toL "fr")) :=
  translate_nonempty_contract (toL "hola") (toL "fr") (by decide) (by decide)

/-- Dropping with the same predicate twice drops nothing new. -/
theorem dropWhile_idem {α : Type} (p : α → Bool) (l : List α) :
    (l.dropWhile p).dropWhile p = l.dropWhile p := by
  induction l with
  | nil => rfl
  | cons c rest ih =>
    by_cases h : p c
    · simp [List.dropWhile_cons, h, ih]
    · simp [List.dropWhile_cons, h]

/-- The head of a dropWhile result does not satisfy the predicate. -/
theorem head_dropWhile_false {α : Type} (p : α → Bool) (l : List α) (c : α)
    (h : (l.dropWhile p).head? = some c) : p c = false := by
  induction l with
  | nil => simp at h
  | cons d rest ih =>
    by_cases hd : p d
    · rw [List.dropWhile_cons, if_pos hd] at h
      exact ih h
    · rw [List.dropWhile_cons, if_neg hd] at h
      simp at h
      subst h
      simpa using hd

/-- A list whose head does not satisfy the predicate is untouched. -/
theorem dropWhile_of_head_false {α : Type} (p : α → Bool) (l : List α)
    (h : ∀ c, l.head? = some c → p c = false) : l.dropWhile p = l := by
  cases l with
  | nil => rfl
  | cons d rest =>
    have hd := h d rfl
    simp [List.dropWhile_cons, hd]

/-- `dropTrailingWs` keeps a prefix of its argument. -/
theorem dropTrailingWs_prefix (l : List Char) : (dropTrailingWs l).IsPrefix l := by
  have h := List.dropWhile_suffix (l := l.reverse) isWs
  have h2 := h.reverse
  simpa [dropTrailingWs] using h2

/-- `dropTrailingWs` keeps the head of a nonempty result. -/
theorem dropTrailingWs_head (l : List Char) (h : dropTrailingWs l ≠ []) :
    (dropTrailingWs l).head? = l.head? := by
  rcases dropTrailingWs_prefix l with ⟨tail, htail⟩
  conv_rhs => rw [← htail]
  exact (List.head?_append_of_ne_nil _ h).symm

/-- `dropTrailingWs` is idempotent. -/
theorem dropTrailingWs_idem (l : List Char) :
    dropTrailingWs (dropTrailingWs l) = dropTrailingWs l := by
  unfold dropTrailingWs
  rw [List.reverse_reverse, dropWhile_idem]

/-- `trimChars` is trailing-trim after leading-trim. -/
theorem trimChars_eq (l : List Char) : trimChars l = dropTrailingWs (l.dropWhile isWs) := rfl

/-- Trimming is idempotent. -/
theorem trimChars_idem (l : List Char) : trimChars (trimChars l) = trimChars l := by
  rw [trimChars_eq, trimChars_eq]
  have hdrop : (dropTrailingWs (l.dropWhile isWs)).dropWhile isWs =
      dropTrailingWs (l.dropWhile isWs) := by
    by_cases h : dropTrailingWs (l.dropWhile isWs) = []
    · rw [h]; rfl
    · apply dropWhile_of_head_false
      intro c hc
      rw [dropTrailingWs_head _ h] at hc
      exact head_dropWhile_false isWs l c hc
  rw [hdrop, dropTrailingWs_idem]

/-- Trimming an all-whitespace list gives the empty list. -/
theorem trimChars_all_ws (l : List Char) (h : ∀ c ∈ l, isWs c = true) :
    trimChars l = [] := by
  have h1 : l.dropWhile isWs = [] := List.dropWhile_eq_nil_iff.mpr h
  simp [trimChars, h1]

/-- Every character of a newline-collapsed text is a character of the
original text or the space that replaced a newline run. -/
theorem mem_collapseNlF (l : List Char) : ∀ (b : Bool) (c : Char),
    c ∈ collapseNlF b l → c ∈ l ∨ c = ' ' := by
  induction l with
  | nil => intro b c hc; simp [collapseNlF] at hc
  | cons d rest ih =>
    intro b c hc
    simp only [collapseNlF] at hc
    by_cases hd : d = '\n'
    · rw [if_pos hd] at hc
      rcases List.mem_append.mp hc with h1 | h2
      · cases b
        · simp at h1; subst h1; exact Or.inr rfl
        · simp at h1
      · rcases ih true c h2 with h | h
        · exact Or.inl (List.mem_cons_of_mem _ h)
        · exact Or.inr h
    · rw [if_neg hd] at hc
      rcases List.mem_cons.mp hc with h | h
      · exact Or.inl (by simp [h])
      · rcases ih false c h with h1 | h1
        · exact Or.inl (List.mem_cons_of_mem _ h1)
        · exact Or.inr h1

/-- A whitespace character is never sentence-terminal punctuation. -/
theorem ws_not_term (c : Char) (h : isWs c = true) : isTerm c = false := by
  have hne : c ≠ '.' ∧ c ≠ '!' ∧ c ≠ '?' := by
    refine ⟨?_, ?_, ?_⟩ <;> rintro rfl <;> revert h <;> decide
  simp only [isTerm]
  rw [decide_eq_false hne.1, decide_eq_false hne.2.1, decide_eq_false hne.2.2]
  rfl

/-- The split never returns an empty piece list. -/
theorem splitAux_ne_nil (l : List Char) : ∀ st, splitAux st l ≠ [] := by
  induction l with
  | nil =>
    intro st
    match st with
    | none => simp [splitAux]
    | some (b, acc) => simp [splitAux]
  | cons c rest ih =>
    intro st
    match st with
    | none =>
      simp only [splitAux]
      split
      · exact ih none
      · exact ih _
    | some (b, acc) =>
      simp only [splitAux]
      split
      · simp
      · exact ih _

/-- Joint invariant of the split: in accumulating mode the pieces glued
with the dropped whitespace runs rebuild the pending accumulator plus
the remaining input, and in skipping mode a leading whitespace run plus
the glued pieces rebuild the remaining input; every dropped run is a
nonempty whitespace run, and every piece before a separator ends in
terminal punctuation. -/
theorem splitAux_glue (l : List Char) :
    (∀ b acc, (b = true → ∃ c0 acc0, acc = c0 :: acc0 ∧ isTerm c0 = true) →
      ∃ seps, seps.length + 1 = (splitAux (some (b, acc)) l).length ∧
        goodSeps seps ∧ piecesOK (splitAux (some (b, acc)) l) ∧
        glue (splitAux (some (b, acc)) l) seps = acc.reverse ++ l) ∧
    (∃ pre seps, (∀ c ∈ pre, isWs c = true) ∧
        seps.length + 1 = (splitAux none l).length ∧
        goodSeps seps ∧ piecesOK (splitAux none l) ∧
        pre ++ glue (splitAux none l) seps = l) := by
  induction l with
  | nil =>
    constructor
    · intro b acc _
      refine ⟨[], rfl, by simp [goodSeps], by simp [splitAux, piecesOK], ?_⟩
      simp [splitAux, glue]
    · refine ⟨[], [], by simp, rfl, by simp [goodSeps], by simp [splitAux, piecesOK], ?_⟩
      simp [splitAux, glue]
  | cons c rest ih =>
    constructor
    · intro b acc hb
      by_cases hsplit : (b && isWs c) = true
      · have hbtrue : b = true := (Bool.and_eq_true _ _).mp hsplit |>.1
        have hcws : isWs c = true := (Bool.and_eq_true _ _).mp hsplit |>.2
        obtain ⟨c0, acc0, rfl, hterm0⟩ := hb hbtrue
        obtain ⟨pre, seps', hpre, hlen, hgood, hpik, heq⟩ := ih.2
        have hne := splitAux_ne_nil rest none
        obtain ⟨q, ps, hqps⟩ := List.exists_cons_of_ne_nil hne
        refine ⟨(c :: pre) :: seps', ?_, ?_, ?_, ?_⟩
        · simp only [splitAux, if_pos hsplit]
          simpa using hlen
        · intro s hs
          rcases List.mem_cons.mp hs with h | h
          · subst h
            exact ⟨by simp, by
              intro x hx
              rcases List.mem_cons.mp hx with h1 | h1
              · subst h1; exact hcws
              · exact hpre x h1⟩
          · exact hgood s h
        · simp only [splitAux, if_pos hsplit]
          intro p hp
          rw [List.dropLast_cons_of_ne_nil hne] at hp
          rcases List.mem_cons.mp hp with h | h
          · subst h
            constructor
            · simp
            · simp [List.getLastD_concat, hterm0]
          · exact hpik p h
        · simp only [splitAux, if_pos hsplit]
          rw [hqps]
          show (c0 :: acc0).reverse ++ (c :: pre) ++ glue (q :: ps) seps' = (c0 :: acc0).reverse ++ c :: rest
          rw [← hqps]
          have : (c :: pre) ++ glue (splitAux none rest) seps' = c :: rest := by
            rw [List.cons_append, heq]
          rw [List.append_assoc, this]
      · obtain ⟨seps, hlen, hgood, hpik, heq⟩ :=
          ih.1 (isTerm c) (c :: acc) (fun h => ⟨c, acc, rfl, h⟩)
        refine ⟨seps, ?_, hgood, ?_, ?_⟩
        · simp only [splitAux, if_neg hsplit]
          exact hlen
        · simp only [splitAux, if_neg hsplit]
          exact hpik
        · simp only [splitAux, if_neg hsplit]
          rw [heq]
          simp
    · by_cases hws : isWs c = true
      · obtain ⟨pre, seps', hpre, hlen, hgood, hpik, heq⟩ := ih.2
        refine ⟨c :: pre, seps', ?_, ?_, hgood, ?_, ?_⟩
        · intro x hx
          rcases List.mem_cons.mp hx with h | h
          · subst h; exact hws
          · exact hpre x h
        · simp only [splitAux, if_pos hws]
          exact hlen
        · simp only [splitAux, if_pos hws]
          exact hpik
        · simp only [splitAux, if_pos hws]
          rw [List.cons_append, heq]
      · obtain ⟨seps, hlen, hgood, hpik, heq⟩ :=
          ih.1 (isTerm c) [c] (fun h => ⟨c, [], rfl, h⟩)
        refine ⟨[], seps, by simp, ?_, hgood, ?_, ?_⟩
        · simp only [splitAux, if_neg hws]
          exact hlen
        · simp only [splitAux, if_neg hws]
          exact hpik
        · simp only [splitAux, if_neg hws]
          rw [heq]
          simp

/-- With no terminal punctuation in the input, the split never fires and
returns the pending accumulator with the whole input as one piece. -/
theorem splitAux_no_term (l : List Char) (hl : ∀ c ∈ l, isTerm c = false) :
    ∀ acc, splitAux (some (false, acc)) l = [acc.reverse ++ l] := by
  induction l with
  | nil => intro acc; simp [splitAux]
  | cons c rest ih =>
    intro acc
    have hc : isTerm c = false := hl c (by simp)
    have hrest : ∀ x ∈ rest, isTerm x = false := fun x hx => hl x (by simp [hx])
    have hcond : (false && isWs c) = false := rfl
    simp only [splitAux, hcond, Bool.false_eq_true, if_false]
    rw [hc, ih hrest (c :: acc)]
    simp

/-- Claim C8: the segmenter collapses newline runs to one space and then
decomposes the collapsed text into pieces separated by nonempty
whitespace runs, each piece before a separator ending in terminal
punctuation (splitting on whitespace right after `.`, `!` or `?`), in
original order; the returned sentences are the trimmed nonempty pieces;
text without terminal punctuation gives the single trimmed collapsed
text (or nothing when that trims to empty), and whitespace-only or
empty text gives the empty list. -/
theorem splitSentences_contract (t : List Char) :
    (∃ seps : List (List Char),
        seps.length + 1 = (rawPieces t).length ∧
        goodSeps seps ∧ piecesOK (rawPieces t) ∧
        glue (rawPieces t) seps = collapseNewlines t) ∧
    splitSentences t = ((rawPieces t).map trimChars).filter (fun s => !s.isEmpty) ∧
    (∀ s ∈ splitSentences t, s ≠ [] ∧ trimChars s = s) ∧
    ((∀ c ∈ t, isTerm c = false) →
      splitSentences t =
        if trimChars (collapseNewlines t) = [] then []
        else [trimChars (collapseNewlines t)]) ∧
    ((∀ c ∈ t, isWs c = true) → splitSentences t = []) := by
  have hkey : (∀ c ∈ t, isTerm c = false) →
      splitSentences t =
        if trimChars (collapseNewlines t) = [] then []
        else [trimChars (collapseNewlines t)] := by
    intro hterm
    have hct : ∀ c ∈ collapseNewlines t, isTerm c = false := by
      intro c hc
      rcases mem_collapseNlF t false c hc with h | h
      · exact hterm c h
      · subst h; rfl
    have hraw : rawPieces t = [collapseNewlines t] := by
      unfold rawPieces
      rw [splitAux_no_term _ hct []]
      simp
    by_cases h : trimChars (collapseNewlines t) = []
    · simp [splitSentences, hraw, h, List.filter]
    · have : (trimChars (collapseNewlines t)).isEmpty = false := by
        rcases List.exists_cons_of_ne_nil h with ⟨x, xs, hx⟩
        simp [hx]
      simp [splitSentences, hraw, h, List.filter, this]
  refine ⟨?_, rfl, ?_, hkey, ?_⟩
  · obtain ⟨seps, hlen, hgood, hpik, heq⟩ :=
      (splitAux_glue (collapseNewlines t)).1 false [] (by simp)
    exact ⟨seps, hlen, hgood, hpik, by simpa using heq⟩
  · intro s hs
    rcases List.mem_filter.mp hs with ⟨hs1, hs2⟩
    have hne : s ≠ [] := by
      intro h
      subst h
      simp at hs2
    rcases List.mem_map.mp hs1 with ⟨p, _, rfl⟩
    exact ⟨hne, trimChars_idem p⟩
  · intro hws
    have hterm : ∀ c ∈ t, isTerm c = false := fun c hc => ws_not_term c (hws c hc)
    have hctws : ∀ c ∈ collapseNewlines t, isWs c = true := by
      intro c hc
      rcases mem_collapseNlF t false c hc with h | h
      · exact hws c h
      · subst h; rfl
    rw [hkey hterm, if_pos (trimChars_all_ws _ hctws)]

/-- Witness for claim C8 at a whitespace-only text and a text with no
terminal punctuation. -/
theorem splitSentences_contract_witness :
    splitSentences (toL " \n ") = [] ∧
    splitSentences (toL "hello world") = [toL "hello world"] := by
  constructor
  · exact (splitSentences_contract (toL " \n ")).2.2.2.2 (by decide)
  · have h := (splitSentences_contract (toL "hello world")).2.2.2.1 (by decide)
    rw [h]
    decide

/-- Claim C1: with the default bound of three sentences, the summarizer
returns the space-joined sentence list in original order when there are
at most three sentences, and otherwise blank-line-joins exactly three
sentences of the text, the first three of the ranking of the
position-annotated sentences that is sorted by descending length with
the earlier sentence winning ties, in rank order rather than document
order. -/
theorem summarize_two_branch_contract (text : List Char) :
    ((splitSentences text).length ≤ 3 →
      localSummarize text 3 = joinSep (toL " ") (splitSentences text)) ∧
    (3 < (splitSentences text).length →
      ∃ r : List (Nat × List Char),
        r.Perm (splitSentences text).enum ∧
        List.Sorted rankLE r ∧
        localSummarize text 3 = joinSep (toL "\n\n") ((r.take 3).map Prod.snd) ∧
        ((r.take 3).map Prod.snd).length = 3 ∧
        (∀ s ∈ (r.take 3).map Prod.snd, s ∈ splitSentences text)) := by
  constructor
  · intro hle
    by_cases h : text = []
    · subst h; rfl
    · simp only [localSummarize, if_neg h, if_pos hle]
  · intro hgt
    have h : text ≠ [] := by
      intro h
      subst h
      exact absurd hgt (by decide)
    refine ⟨List.insertionSort rankLE (splitSentences text).enum,
      List.perm_insertionSort _ _, List.sorted_insertionSort _ _, ?_, ?_, ?_⟩
    · simp only [localSummarize, if_neg h, if_neg (Nat.not_le.mpr hgt)]
    · have hlen : (List.insertionSort rankLE (splitSentences text).enum).length =
          (splitSentences text).length := by
        rw [(List.perm_insertionSort rankLE _).length_eq, List.enum_length]
      simp only [List.length_map, List.length_take, hlen]
      omega
    · intro s hs
      rcases List.mem_map.mp hs with ⟨p, hp, rfl⟩
      have hp2 : p ∈ List.insertionSort rankLE (splitSentences text).enum :=
        List.mem_of_mem_take hp
      have hp3 : p ∈ (splitSentences text).enum :=
        ((List.perm_insertionSort rankLE _).mem_iff).mp hp2
      have hmem : p.2 ∈ ((splitSentences text).enum).map Prod.snd :=
        List.mem_map_of_mem _ hp3
      rwa [List.enum_map_snd] at hmem

/-- Witness for claim C1: the short branch at a two-sentence text and
the ranking branch at a five-sentence text. -/
theorem summarize_two_branch_contract_witness :
    ((splitSentences (toL "One two. Three.")).length ≤ 3 ∧
      localSummarize (toL "One two. Three.") 3 =
        joinSep (toL " ") (splitSentences (toL "One two. Three."))) ∧
    (3 < (splitSentences (toL "Aaaa. Bb. C. Dddddd. Eee.")).length ∧
      ∃ r : List (Nat × List Char),
        r.Perm (splitSentences (toL "Aaaa. Bb. C. Dddddd. Eee.")).enum ∧
        List.Sorted rankLE r ∧
        localSummarize (toL "Aaaa. Bb. C. Dddddd. Eee.") 3 =
          joinSep (toL "\n\n") ((r.take 3).map Prod.snd) ∧
        ((r.take 3).map Prod.snd).length = 3 ∧
        (∀ s ∈ (r.take 3).map Prod.snd,
          s ∈ splitSentences (toL "Aaaa. Bb. C. Dddddd. Eee."))) :=
  ⟨⟨by decide, (summarize_two_branch_contract (toL "One two. Three.")).1 (by decide)⟩,
   ⟨by decide, (summarize_two_branch_contract (toL "Aaaa. Bb. C. Dddddd. Eee.")).2 (by decide)⟩⟩
